import Mathlib

/-!
Verification development for the EarthPH earthquake pipeline
(scrape → parse → normalize → dedupe → upsert → retire → read).

The definitions below are a shallow embedding of the JavaScript source:

* `parsePhivolcsDateTime` — `api/earthph-cron.js` lines 8–46 /
  `api/scrape-cjs.js` lines 215–253 (identical function; `api/events.js`
  lines 442–489 implements the same contract with a regex-matched date
  segment instead of a token split: on all inputs exercised here the two
  agree).
* `generateEventId` — `api/events.js` lines 499–505 (timestamp + lat +
  lon + magnitude); `generateEventIdCron` — `api/earthph-cron.js`
  lines 48–51 (timestamp + scaled lat + lon).
* `processRow` / `extractEvents` — the row loop of `scrapeAndStore` in
  `api/events.js` lines 292–361.
* `dedupeFirst` — `api/events.js` lines 369–381 (Set-based, keeps the
  first occurrence); `dedupeMap` — `api/scrape-cjs.js` lines 417–420
  (JS `Map`-based, last write per key wins).
* `upsert` — the Supabase batch upsert on conflict key `id`
  (`api/events.js` lines 391–397): insert when the id is absent
  (`created_at` set by the store at insert time), overwrite every
  payload field when it is present (`created_at` untouched).
* `sweepByCreatedAt` — `api/events.js` lines 407–412 and
  `api/earthph-cron.js` lines 106–113 (`delete().lt('created_at', …)`);
  `sweepByOccurredAt` — `api/scrape-cjs.js` lines 443–449 and
  `src/unnamed/part_014` lines 230–235 (`delete().lt('occurred_at', …)`).
* `readQueryEvents` — the query of the handler in `api/events.js`
  lines 167–172 (order by `occurred_at` desc, limit 100, no time
  filter); `readQueryWindow` — `src/unnamed/part_010` lines 55–63 and
  `src/unnamed/part_011` lines 153–161 (filter to the last 24 hours,
  order desc, limit 500).
* `scrapeAndStore` / `handlerModel` — the control flow of
  `scrapeAndStore` and the GET handler in `api/events.js`
  (fetch failures are caught inside `scrapeAndStore` and leave the
  store untouched; the handler then answers from storage).

JavaScript numbers are modelled as `Rat` (every numeric literal and
decimal cell text occurring here is exactly representable), instants as
`Int` milliseconds since the Unix epoch, and fallible steps as `Option`.
-/

namespace EarthPH

/-- Milliseconds since the Unix epoch (JS `Date.getTime()`). -/
abbrev Millis := Int

/-! ## Character and string helpers -/

/-- Whitespace as recognised by JS `trim` / `\s` on the inputs in scope. -/
def isWs (c : Char) : Bool :=
  c = ' ' ∨ c = '\t' ∨ c = '\n' ∨ c = '\r'

/-- Decimal digit test. -/
def isDigitCh (c : Char) : Bool :=
  '0' ≤ c ∧ c ≤ '9'

/-- Numeric value of a digit character. -/
def digitVal (c : Char) : Nat := c.toNat - 48

/-- JS `String.prototype.trim` on a character list. -/
def trimList (l : List Char) : List Char :=
  ((l.dropWhile isWs).reverse.dropWhile isWs).reverse

/-- JS `String.prototype.trim`. -/
def trimS (s : String) : String :=
  ⟨trimList s.toList⟩

/-- Does `pre` occur at the head of `l`? -/
def startsWithL : List Char → List Char → Bool
  | [], _ => true
  | _ :: _, [] => false
  | p :: ps, c :: cs => p = c ∧ startsWithL ps cs

/-- The literal separator `" - "` used by the PHIVOLCS datetime format. -/
def sepChars : List Char := [' ', '-', ' ']

/-- Split at the first occurrence of `" - "`: returns the text before the
separator and the text after it, or `none` when the separator is absent
(the shape produced by JS `split(' - ')` destructured into two names). -/
def breakOnSep : List Char → Option (List Char × List Char)
  | [] => none
  | c :: rest =>
    if startsWithL sepChars (c :: rest) then
      some ([], (c :: rest).drop sepChars.length)
    else
      (breakOnSep rest).map (fun p => (c :: p.1, p.2))

/-- Split a character list on single spaces (JS `split(' ')`). -/
def splitSpaces : List Char → List (List Char)
  | [] => [[]]
  | c :: rest =>
    match splitSpaces rest with
    | [] => if c = ' ' then [[], []] else [[c]]
    | p :: ps => if c = ' ' then [] :: p :: ps else (c :: p) :: ps

/-- Natural number denoted by a digit list (most significant first). -/
def natFromDigits (l : List Char) : Nat :=
  l.foldl (fun acc c => acc * 10 + digitVal c) 0

/-! ## JS numeric parsing (`parseInt`, `parseFloat`) -/

/-- JS `parseInt(s)` (base 10): skip leading whitespace, optional sign,
then the leading digit run; `NaN` (here `none`) when no digit follows. -/
def parseIntJS (s : String) : Option Int :=
  let l := s.toList.dropWhile isWs
  let p : Bool × List Char :=
    match l with
    | '-' :: rest => (true, rest)
    | '+' :: rest => (false, rest)
    | _ => (false, l)
  let ds := p.2.takeWhile isDigitCh
  if ds.isEmpty then none
  else some (if p.1 then -(natFromDigits ds : Int) else (natFromDigits ds : Int))

/-- Exponent suffix of a JS float literal (`e`/`E` already consumed):
optional sign then digits; contributes `0` when no digit follows, since
`parseFloat` takes the longest valid literal prefix. -/
def parseExpPart (l : List Char) : Int :=
  let p : Bool × List Char :=
    match l with
    | '-' :: rest => (true, rest)
    | '+' :: rest => (false, rest)
    | _ => (false, l)
  let ds := p.2.takeWhile isDigitCh
  if ds.isEmpty then 0
  else if p.1 then -(natFromDigits ds : Int) else (natFromDigits ds : Int)

/-- JS `parseFloat(s)`: skip leading whitespace, optional sign, integer
digits, optional `.` and fraction digits (at least one digit in total),
optional exponent. `NaN` is `none`; trailing garbage is ignored.
(The special literal `Infinity` does not occur in this data and is not
modelled.) -/
def parseFloatJS (s : String) : Option Rat :=
  let l := s.toList.dropWhile isWs
  let p : Bool × List Char :=
    match l with
    | '-' :: rest => (true, rest)
    | '+' :: rest => (false, rest)
    | _ => (false, l)
  let ds := p.2.takeWhile isDigitCh
  let l2 := p.2.drop ds.length
  let fr : List Char × List Char :=
    match l2 with
    | '.' :: rest => (rest.takeWhile isDigitCh, rest.drop (rest.takeWhile isDigitCh).length)
    | _ => ([], l2)
  if ds.isEmpty ∧ fr.1.isEmpty then none
  else
    let digits : Nat := natFromDigits ds * 10 ^ fr.1.length + natFromDigits fr.1
    let n : Int := if p.1 then -(digits : Int) else (digits : Int)
    let ex : Int :=
      match fr.2 with
      | 'e' :: rest => parseExpPart rest
      | 'E' :: rest => parseExpPart rest
      | _ => 0
    if 0 ≤ ex then some (mkRat (n * 10 ^ ex.toNat) (10 ^ fr.1.length))
    else some (mkRat n (10 ^ fr.1.length * 10 ^ (-ex).toNat))

/-! ## Proleptic Gregorian calendar (JS `Date.UTC` / `toISOString`) -/

/-- Day number (days since 1970-01-01) of the civil date `y-m-d`,
`m ∈ 1..12` (Howard Hinnant's `days_from_civil`). -/
def daysFromCivil (y m d : Int) : Int :=
  let y2 := if m ≤ 2 then y - 1 else y
  let era := Int.fdiv y2 400
  let yoe := y2 - era * 400
  let mp := if m ≤ 2 then m + 9 else m - 3
  let doy := Int.fdiv (153 * mp + 2) 5 + d - 1
  let doe := yoe * 365 + Int.fdiv yoe 4 - Int.fdiv yoe 100 + doy
  era * 146097 + doe - 719468

/-- Civil date `(y, m, d)` of a day number (Hinnant's `civil_from_days`). -/
def civilFromDays (z0 : Int) : Int × Int × Int :=
  let z := z0 + 719468
  let era := Int.fdiv z 146097
  let doe := z - era * 146097
  let yoe := Int.fdiv (doe - Int.fdiv doe 1460 + Int.fdiv doe 36524 - Int.fdiv doe 146096) 365
  let y := yoe + era * 400
  let doy := doe - (365 * yoe + Int.fdiv yoe 4 - Int.fdiv yoe 100)
  let mp := Int.fdiv (5 * doy + 2) 153
  let d := doy - Int.fdiv (153 * mp + 2) 5 + 1
  let m := if mp < 10 then mp + 3 else mp - 9
  (if m ≤ 2 then y + 1 else y, m, d)

/-- JS `MakeDay(year, month, date)` with 0-based `month` and the spec's
rollover of out-of-range month values. -/
def makeDayJS (year month date : Int) : Int :=
  let ym := year + Int.fdiv month 12
  let mn := month - 12 * Int.fdiv month 12
  daysFromCivil ym (mn + 1) 1 + (date - 1)

/-- JS `Date.UTC(year, month, day, hours, minutes)` in milliseconds
(0-based `month`; out-of-range fields roll over arithmetically). -/
def dateUTC (year month day hours minutes : Int) : Millis :=
  makeDayJS year month day * 86400000 + hours * 3600000 + minutes * 60000

/-- Render a non-negative integer zero-padded to `width` digits. -/
def padNum (width : Nat) (n : Int) : String :=
  let s := toString n.toNat
  ⟨List.replicate (width - s.length) '0'⟩ ++ s

/-- JS `Date.prototype.toISOString` for the four-digit-year range:
`YYYY-MM-DDTHH:MM:SS.mmmZ`. -/
def toISOString (t : Millis) : String :=
  let days := Int.fdiv t 86400000
  let ms := t - days * 86400000
  let c := civilFromDays days
  let hh := Int.fdiv ms 3600000
  let mi := Int.fdiv (ms - hh * 3600000) 60000
  let ss := Int.fdiv (ms - hh * 3600000 - mi * 60000) 1000
  let mss := ms - hh * 3600000 - mi * 60000 - ss * 1000
  padNum 4 c.1 ++ "-" ++ padNum 2 c.2.1 ++ "-" ++ padNum 2 c.2.2 ++ "T" ++
    padNum 2 hh ++ ":" ++ padNum 2 mi ++ ":" ++ padNum 2 ss ++ "." ++ padNum 3 mss ++ "Z"

/-! ## DateTime Normalizer (`parsePhivolcsDateTime`) -/

/-- Month-name lookup table of `parsePhivolcsDateTime`
(`api/earthph-cron.js` lines 20–24), months numbered 1–12. -/
def monthTable : List (String × Int) :=
  [("January", 1), ("February", 2), ("March", 3), ("April", 4),
   ("May", 5), ("June", 6), ("July", 7), ("August", 8),
   ("September", 9), ("October", 10), ("November", 11), ("December", 12)]

/-- The lookup `months[monthName]`: exact-string month lookup. -/
def monthLookup (s : String) : Option Int :=
  (monthTable.find? (fun p => p.1 == s)).map (fun p => p.2)

/-- The destructuring `const [datePart, timePart] = dateTimeStr.split(' - ')` followed by
the `!datePart || !timePart` guard: the segments before the first and
second occurrence of `" - "`, provided both are non-empty. -/
def splitDateTime (s : String) : Option (List Char × List Char) :=
  match breakOnSep s.toList with
  | none => none
  | some (dp, rest) =>
    let tp :=
      match breakOnSep rest with
      | some q => q.1
      | none => rest
    if dp.isEmpty ∨ tp.isEmpty then none else some (dp, tp)

/-- Parse the date segment: trim, split on spaces into exactly three
tokens, `parseInt` on day and year, month-name lookup; the JS falsiness
guard rejects day 0 and year 0. Returns `(day, month, year)`. -/
def parseDatePart (dp : List Char) : Option (Int × Int × Int) :=
  match splitSpaces (trimList dp) with
  | [dt, mt, yt] =>
    match parseIntJS ⟨dt⟩, monthLookup ⟨mt⟩, parseIntJS ⟨yt⟩ with
    | some day, some month, some year =>
      if day = 0 ∨ year = 0 then none else some (day, month, year)
    | _, _, _ => none
  | _ => none

/-- Case-insensitive `AM`/`PM` at the head of the list
(`some true` = PM). -/
def matchMeridiem : List Char → Option Bool
  | c1 :: c2 :: _ =>
    if (c1 = 'A' ∨ c1 = 'a') ∧ (c2 = 'M' ∨ c2 = 'm') then some false
    else if (c1 = 'P' ∨ c1 = 'p') ∧ (c2 = 'M' ∨ c2 = 'm') then some true
    else none
  | _ => none

/-- Continuation of the time regex after the hour digits:
`:(\d{2})\s*(AM|PM)` — returns `(hours, minutes, isPM)`. -/
def matchTimeCore (hours : Nat) : List Char → Option (Nat × Nat × Bool)
  | ':' :: m1 :: m2 :: rest =>
    if isDigitCh m1 ∧ isDigitCh m2 then
      match matchMeridiem (rest.dropWhile isWs) with
      | some pm => some (hours, digitVal m1 * 10 + digitVal m2, pm)
      | none => none
    else none
  | _ => none

/-- Attempt the regex `(\d{1,2}):(\d{2})\s*(AM|PM)/i` at the head of the
list, with the engine's greedy-then-backtrack choice for `\d{1,2}`. -/
def matchTimeAt : List Char → Option (Nat × Nat × Bool)
  | c1 :: c2 :: rest =>
    if isDigitCh c1 then
      if isDigitCh c2 then
        match matchTimeCore (digitVal c1 * 10 + digitVal c2) rest with
        | some r => some r
        | none => matchTimeCore (digitVal c1) (c2 :: rest)
      else matchTimeCore (digitVal c1) (c2 :: rest)
    else none
  | _ => none

/-- Leftmost match of the time regex anywhere in the segment
(JS `String.prototype.match`). -/
def findTimeMatch : List Char → Option (Nat × Nat × Bool)
  | [] => none
  | c :: rest =>
    match matchTimeAt (c :: rest) with
    | some r => some r
    | none => findTimeMatch rest

/-- Parse the time segment and convert to 24-hour form:
PM adds 12 except for hour 12; 12 AM becomes hour 0. -/
def parseTimePart (tp : List Char) : Option (Int × Int) :=
  match findTimeMatch tp with
  | none => none
  | some (h, m, pm) =>
    let h1 : Int := if pm ∧ (h : Int) ≠ 12 then (h : Int) + 12 else (h : Int)
    let h2 : Int := if ¬ pm ∧ h1 = 12 then 0 else h1
    some (h2, (m : Int))

/-- The DateTime Normalizer, to milliseconds: split on `" - "`, parse the
date and time segments, build the instant as if the fields were UTC, then
subtract the fixed 8-hour Philippine offset
(`api/earthph-cron.js` lines 8–46). -/
def parsePhivolcsMillis (s : String) : Option Millis :=
  match splitDateTime s with
  | none => none
  | some (dp, tp) =>
    match parseDatePart dp, parseTimePart tp with
    | some dmy, some hm =>
      some (dateUTC dmy.2.2 (dmy.2.1 - 1) dmy.1 hm.1 hm.2 - 8 * 3600000)
    | _, _ => none

/-- The DateTime Normalizer as in the source: ISO-8601 string or `null`. -/
def parsePhivolcsDateTime (s : String) : Option String :=
  (parsePhivolcsMillis s).map toISOString

/-! ## Identity Generator (`generateEventId`) -/

/-- JS `Number.prototype.toFixed(d)` on a non-negative value: round to
the nearest multiple of `10^-d`, ties towards the larger value, and
render with exactly `d` decimals. The rounded integer
`⌊q·10^d + 1/2⌋` is computed directly on the fraction as
`⌊(2·num·10^d + den) / (2·den)⌋`. -/
def ratToFixedNN (d : Nat) (q : Rat) : String :=
  let n := (Int.fdiv (2 * q.num * (10 ^ d : Nat) + q.den) (2 * q.den)).toNat
  if d = 0 then toString n
  else toString (n / 10 ^ d) ++ "." ++ padNum d (Int.ofNat (n % 10 ^ d))

/-- JS `Number.prototype.toFixed(d)`: the sign is split off first, then
the magnitude is rounded and rendered. -/
def ratToFixed (d : Nat) (q : Rat) : String :=
  if q < 0 then "-" ++ ratToFixedNN d (-q) else ratToFixedNN d q

/-- JS `occurred_at.replace(/[:.]/g, '-')`: every colon and dot becomes
a dash. -/
def replaceTimeSeps (s : String) : String :=
  ⟨s.toList.map (fun c => if c = ':' ∨ c = '.' then '-' else c)⟩

/-- JS `str.replace('.', '')` with a string pattern: only the first
occurrence is removed. -/
def removeFirstDotL : List Char → List Char
  | [] => []
  | '.' :: rest => rest
  | c :: rest => c :: removeFirstDotL rest

/-- String wrapper for `removeFirstDotL`. -/
def removeFirstDot (s : String) : String :=
  ⟨removeFirstDotL s.toList⟩

/-- The Identity Generator of `api/events.js` lines 499–505. The
`occurredISO` argument is the ISO string produced by the DateTime
Normalizer (`new Date(occurred_at).toISOString()` re-serialises it
unchanged). -/
def generateEventId (occurredISO : String) (lat lon mag : Rat) : String :=
  replaceTimeSeps occurredISO ++ "_" ++ removeFirstDot (ratToFixed 4 lat) ++ "_" ++
    removeFirstDot (ratToFixed 4 lon) ++ "_" ++ removeFirstDot (ratToFixed 1 mag)

/-- The Identity Generator of `api/earthph-cron.js` lines 48–51:
timestamp with separators dashed, then latitude and longitude scaled by
100 and rendered with `toFixed(0)`. -/
def generateEventIdCron (occurredISO : String) (lat lon : Rat) : String :=
  replaceTimeSeps occurredISO ++ "_" ++ ratToFixed 0 (lat * 100) ++ "_" ++
    ratToFixed 0 (lon * 100)

/-! ## Data model -/

/-- A validated event record as pushed by the scrape loop (the upsert
payload: no `created_at`, which only the store assigns). -/
structure Event where
  id : String
  occurred_at : Millis
  latitude : Rat
  longitude : Rat
  depth_km : Option Rat
  magnitude : Rat
  location_text : String
deriving DecidableEq, Repr

/-- A stored row of the `events` table: the payload columns plus the
server-side `created_at` (set at first insert, untouched by updates). -/
structure Row where
  id : String
  occurred_at : Millis
  latitude : Rat
  longitude : Rat
  depth_km : Option Rat
  magnitude : Rat
  location_text : String
  created_at : Millis
deriving DecidableEq, Repr

/-- The row stored for an upsert payload record, with the given
`created_at` column value. -/
def eventRow (createdAt : Millis) (e : Event) : Row :=
  { id := e.id, occurred_at := e.occurred_at, latitude := e.latitude,
    longitude := e.longitude, depth_km := e.depth_km, magnitude := e.magnitude,
    location_text := e.location_text, created_at := createdAt }

/-! ## Row Extractor and Record Validator (`scrapeAndStore` row loop) -/

/-- The bounding-box constant 4.5 of `api/events.js` line 330. -/
def minLat : Rat := mkRat 45 10

/-- The bounding-box constant 21.0 of `api/events.js` line 330. -/
def maxLat : Rat := mkRat 210 10

/-- The bounding-box constant 116.0 of `api/events.js` line 330. -/
def minLon : Rat := mkRat 1160 10

/-- The bounding-box constant 127.0 of `api/events.js` line 330. -/
def maxLon : Rat := mkRat 1270 10

/-- The expression `parseFloat(depthRaw) || null`: a depth cell that does not parse, or
parses to `0` (falsy), is stored as `null`. -/
def parseDepth (s : String) : Option Rat :=
  match parseFloatJS s with
  | none => none
  | some v => if v = 0 then none else some v

/-- One iteration of the scrape loop of `api/events.js` lines 292–356 on
the text contents of a table row's cells: `none` means the row is
skipped (wrong cell count, empty required cell, failed parse, or
out-of-bounds coordinates), `some e` means `e` is pushed. -/
def processRow (cells : List String) : Option Event :=
  match cells with
  | [c0, c1, c2, c3, c4, c5] =>
    let dateTimeRaw := trimS c0
    let latitudeRaw := trimS c1
    let longitudeRaw := trimS c2
    let depthRaw := trimS c3
    let magnitudeRaw := trimS c4
    let locationText := trimS c5
    if dateTimeRaw = "" ∨ latitudeRaw = "" ∨ longitudeRaw = "" ∨ magnitudeRaw = "" then
      none
    else
      match parsePhivolcsMillis dateTimeRaw, parseFloatJS latitudeRaw,
            parseFloatJS longitudeRaw, parseFloatJS magnitudeRaw with
      | some occ, some lat, some lon, some mag =>
        if lat < minLat ∨ maxLat < lat ∨ lon < minLon ∨ maxLon < lon then
          none
        else
          some { id := generateEventId (toISOString occ) lat lon mag,
                 occurred_at := occ, latitude := lat, longitude := lon,
                 depth_km := parseDepth depthRaw, magnitude := mag,
                 location_text := locationText }
      | _, _, _, _ => none
  | _ => none

/-- The whole scrape loop: the list of pushed events in input order and
the `skippedRows` counter. -/
def extractEvents : List (List String) → List Event × Nat
  | [] => ([], 0)
  | cells :: rest =>
    let r := extractEvents rest
    match processRow cells with
    | some e => (e :: r.1, r.2)
    | none => (r.1, r.2 + 1)

/-! ## Deduplicator -/

/-- Loop body of the Set-based deduplication of `api/events.js`
lines 369–381: `seen` holds the ids already pushed. -/
def dedupeFirstAux : List Event → List String → List Event
  | [], _ => []
  | e :: rest, seen =>
    if seen.contains e.id then dedupeFirstAux rest seen
    else e :: dedupeFirstAux rest (e.id :: seen)

/-- The Set-based Deduplicator of `api/events.js`: keeps the first
occurrence of each id, in input order. -/
def dedupeFirst (es : List Event) : List Event :=
  dedupeFirstAux es []

/-- One `Map.prototype.set` step on an insertion-ordered association
list: an existing key keeps its position but takes the new value, a new
key is appended. -/
def mapInsert (m : List (String × Event)) (k : String) (v : Event) : List (String × Event) :=
  if m.any (fun p => p.1 = k) then
    m.map (fun p => if p.1 = k then (k, v) else p)
  else m ++ [(k, v)]

/-- The Map-based Deduplicator of `api/scrape-cjs.js` lines 417–420:
`Array.from(new Map(events.map(e => [e.id, e])).values())`. -/
def dedupeMap (es : List Event) : List Event :=
  (es.foldl (fun m e => mapInsert m e.id e) []).map (fun p => p.2)

/-! ## Upsert Writer (`upsert` on conflict key `id`) -/

/-- Upsert of a single record: if a row with the same id exists, all
payload fields are overwritten in place (`created_at` preserved);
otherwise the record is appended with `created_at := now`. -/
def upsertOne (now : Millis) (s : List Row) (e : Event) : List Row :=
  if s.any (fun r => r.id = e.id) then
    s.map (fun r => if r.id = e.id then eventRow r.created_at e else r)
  else s ++ [eventRow now e]

/-- The batch Upsert Writer: the records are merged in batch order. -/
def upsert (now : Millis) (s : List Row) (b : List Event) : List Row :=
  b.foldl (upsertOne now) s

/-! ## Retention Sweeper -/

/-- The retention horizon: 24 hours in milliseconds. -/
def retentionMs : Int := 24 * 60 * 60 * 1000

/-- The sweep of `api/events.js` lines 407–412 and
`api/earthph-cron.js` lines 106–113: `delete().lt('created_at',
cutoff)` — a row survives exactly when its `created_at` is at least the
cutoff. -/
def sweepByCreatedAt (now : Millis) (s : List Row) : List Row :=
  s.filter (fun r => now - retentionMs ≤ r.created_at)

/-- The sweep of `api/scrape-cjs.js` lines 443–449 and
`src/unnamed/part_014` lines 230–235: `delete().lt('occurred_at',
cutoff)`. -/
def sweepByOccurredAt (now : Millis) (s : List Row) : List Row :=
  s.filter (fun r => now - retentionMs ≤ r.occurred_at)

/-! ## Read Service queries -/

/-- Descending `occurred_at` ordering used by the read queries. -/
def rowDescLE (a b : Row) : Prop := b.occurred_at ≤ a.occurred_at

instance : DecidableRel rowDescLE := fun a b =>
  inferInstanceAs (Decidable (b.occurred_at ≤ a.occurred_at))

instance : IsTotal Row rowDescLE := ⟨fun a b => le_total b.occurred_at a.occurred_at⟩

instance : IsTrans Row rowDescLE := ⟨fun _ _ _ h1 h2 => le_trans h2 h1⟩

/-- The ordering `order('occurred_at', descending)` on the stored rows. -/
def sortDesc (s : List Row) : List Row :=
  List.insertionSort rowDescLE s

/-- The query of the GET handler in `api/events.js` lines 167–172:
order by `occurred_at` descending, `limit(100)`, no time filter. -/
def readQueryEvents (s : List Row) : List Row :=
  (sortDesc s).take 100

/-- The query of `src/unnamed/part_010` lines 55–63 and
`src/unnamed/part_011` lines 153–161: `gte('occurred_at', now − 24h)`,
order by `occurred_at` descending, `limit(500)`. -/
def readQueryWindow (now : Millis) (s : List Row) : List Row :=
  (sortDesc (s.filter (fun r => now - retentionMs ≤ r.occurred_at))).take 500

/-! ## Scrape cycle and GET handler (`api/events.js`) -/

/-- Outcome of the upstream fetch of the PHIVOLCS page: the extracted
table rows (as cell-text lists), or a fetch failure (timeout,
connection error, non-2xx). -/
inductive FetchOutcome where
  | ok (rows : List (List String))
  | fetchError (message : String)
deriving DecidableEq, Repr

/-- The function `scrapeAndStore` of `api/events.js` lines 256–435 as a store
transformer: on a fetch failure the `catch` swallows the error and the
store is untouched; otherwise the rows are extracted, deduplicated,
upserted, and the `created_at`-based sweep runs. An empty extraction
returns early, before the upsert and the sweep. -/
def scrapeAndStore (now : Millis) (fetch : FetchOutcome) (store : List Row) : List Row :=
  match fetch with
  | .fetchError _ => store
  | .ok rows =>
    let events := (extractEvents rows).1
    if events.isEmpty then store
    else sweepByCreatedAt now (upsert now store (dedupeFirst events))

/-- The response body of the GET handler (success flag and events
array). -/
structure ApiResponse where
  success : Bool
  events : List Row
deriving DecidableEq, Repr

/-- The GET handler of `api/events.js` on the stale-cache path: run
`scrapeAndStore`, then answer the read query from storage with
`success: true`. Returns the response and the store it leaves behind. -/
def handlerModel (now : Millis) (fetch : FetchOutcome) (store : List Row) :
    ApiResponse × List Row :=
  let store1 := scrapeAndStore now fetch store
  ({ success := true, events := readQueryEvents store1 }, store1)

/-! ## The earthph-cron.js scrape loop (no per-row validation) -/

/-- An upsert payload record of the `api/earthph-cron.js` loop: it reads only the first
three cells and pushes id, `occurred_at`, latitude and longitude (lines 92–96). A `none`
coordinate models JS `NaN` — this loop performs no `isNaN` check. -/
structure CronEvent where
  id : String
  occurred_at : Millis
  latitude : Option Rat
  longitude : Option Rat
deriving DecidableEq, Repr

/-- The coordinate fragment `(x * 100).toFixed(0)` of the cron Identity Generator on a
possibly-NaN value: `NaN.toFixed(0)` renders `"NaN"`; otherwise the value times 100
(built as `mkRat (num * 100) den`) is rounded and rendered. -/
def cronCoord (x : Option Rat) : String :=
  match x with
  | none => "NaN"
  | some q => ratToFixed 0 (mkRat (q.num * 100) q.den)

/-- The cron Identity Generator on unvalidated coordinates: the `generateEventId` call at
`api/earthph-cron.js` line 95 in the case where `occurred_at` is non-null. -/
def generateEventIdCronOpt (occurredISO : String) (lat lon : Option Rat) : String :=
  replaceTimeSeps occurredISO ++ "_" ++ cronCoord lat ++ "_" ++ cronCoord lon

/-- One data-row iteration of the `api/earthph-cron.js` scrape loop (lines 91–96). Unlike
the `api/events.js` loop there is no cell-count check, no empty-cell check, no validation
and no per-row try/catch: the datetime parse result flows straight into `generateEventId`,
whose `occurred_at.replace(/[:.]/g, '-')` throws a TypeError when `occurred_at` is `null`.
The thrown exception is the `Except.error` case. A missing cell reads as `""`
(an empty cheerio selection). -/
def processRowCron (cells : List String) : Except String CronEvent :=
  match parsePhivolcsMillis (cells.getD 0 "") with
  | none => Except.error "TypeError: occurred_at is null in generateEventId"
  | some occ =>
    Except.ok
      { id := generateEventIdCronOpt (toISOString occ) (parseFloatJS (cells.getD 1 ""))
          (parseFloatJS (cells.getD 2 "")),
        occurred_at := occ, latitude := parseFloatJS (cells.getD 1 ""),
        longitude := parseFloatJS (cells.getD 2 "") }

/-- The body of `table.find('tr').each` from row index 1 on: rows are processed in order,
and a thrown exception aborts the remaining iterations. -/
def cronScrapeGo : List (List String) → Except String (List CronEvent)
  | [] => Except.ok []
  | cells :: rest =>
    match processRowCron cells with
    | Except.error msg => Except.error msg
    | Except.ok ev => (cronScrapeGo rest).map (fun evs => ev :: evs)

/-- The `api/earthph-cron.js` scrape loop (lines 89–97): the row at index 0 is skipped as
the header and the rest are processed with no recovery. The result is the pushed `events`
array, or the exception that escapes the loop to the handler's catch — which answers the
cycle with an HTTP 500 error and reports no skipped-row count. -/
def cronScrapeRows (rows : List (List String)) : Except String (List CronEvent) :=
  match rows with
  | [] => Except.ok []
  | _ :: dataRows => cronScrapeGo dataRows

/-! ## Derived notions used by the statements -/

/-- The id column of a store. -/
def idsOf (s : List Row) : List String := s.map Row.id

/-- The ids of a store are pairwise distinct (the `events` table's
primary-key invariant). -/
def NodupIds (s : List Row) : Prop := (idsOf s).Nodup

/-- The ids of a batch of upsert payload records. -/
def eIds (b : List Event) : List String := b.map Event.id

/-- A row carries exactly the payload of the record `e` (its
`created_at` column is whatever the store kept). -/
def agrees (e : Event) (r : Row) : Prop := r = eventRow r.created_at e

/-- Some row of the store has the given id. -/
def hasId (s : List Row) (i : String) : Prop := ∃ r ∈ s, r.id = i

/-- The bounding-box test of `api/events.js` line 330, on an upsert
payload record. -/
def inBoxE (e : Event) : Prop :=
  minLat ≤ e.latitude ∧ e.latitude ≤ maxLat ∧
    minLon ≤ e.longitude ∧ e.longitude ≤ maxLon

/-- The bounding-box test on a stored row. -/
def inBoxRow (r : Row) : Prop :=
  minLat ≤ r.latitude ∧ r.latitude ≤ maxLat ∧
    minLon ≤ r.longitude ∧ r.longitude ≤ maxLon

/-- Last occurrence of an id in a batch. -/
def lastOccur (es : List Event) (k : String) : Option Event :=
  es.reverse.find? (fun x => x.id = k)

/-- First occurrence of an id in a batch. -/
def firstOccur (es : List Event) (k : String) : Option Event :=
  es.find? (fun x => x.id = k)

/-- The association list built by `new Map(events.map(e => [e.id, e]))`. -/
def mapFold (es : List Event) : List (String × Event) :=
  es.foldl (fun m e => mapInsert m e.id e) []

/-- Keys of an insertion-ordered association list. -/
def mapKeys (m : List (String × Event)) : List String := m.map Prod.fst

/-! ## Concrete scenario data -/

/-- A valid source table row (cells in PHIVOLCS order) with the given
datetime text. -/
def sampleCells (t : String) : List String :=
  [t, "14.23", "121.05", "10", "4.5", "Test Area"]

/-- The instant of the sample event
(`"01 November 2025 - 04:12 PM"` = 2025-11-01T08:12:00Z). -/
def sampleMillis : Millis := 1761984720000

/-- A reference "now": one hour after the sample event. -/
def nowSample : Millis := sampleMillis + 3600000

/-- The upsert payload record extracted from `sampleCells`. -/
def evSample : Event :=
  { id := "2025-11-01T08-12-00-000Z_142300_1210500_45", occurred_at := sampleMillis,
    latitude := mkRat 1423 100, longitude := mkRat 12105 100, depth_km := some 10,
    magnitude := mkRat 45 10, location_text := "Test Area" }

/-- A stored row scraped late: its physical event time is 48 hours old
but it entered the store only a minute ago. -/
def lateRow : Row :=
  { id := "late-row", occurred_at := nowSample - 172800000, latitude := 10, longitude := 121,
    depth_km := none, magnitude := 5, location_text := "Offshore", created_at := nowSample - 60000 }

/-- A stored row one hour old on both clocks. -/
def freshRow : Row :=
  { id := "fresh", occurred_at := nowSample - 3600000, latitude := 12, longitude := 122,
    depth_km := some 3, magnitude := 4, location_text := "Near coast",
    created_at := nowSample - 3600000 }

/-- A stored row two days old on both clocks. -/
def oldRow : Row :=
  { id := "old", occurred_at := nowSample - 172800000, latitude := 11, longitude := 123,
    depth_km := none, magnitude := 3, location_text := "Inland",
    created_at := nowSample - 172800000 }

/-- A store holding one fresh and one stale row. -/
def storeMixed : List Row := [freshRow, oldRow]

/-- Single-row source table: the sample event. -/
def tableOne : List (List String) := [sampleCells "01 November 2025 - 04:12 PM"]

/-- A stored row carrying the sample event's id whose `created_at` is
past the retention horizon. -/
def staleIdRow : Row :=
  { id := "2025-11-01T08-12-00-000Z_142300_1210500_45", occurred_at := sampleMillis,
    latitude := mkRat 1423 100, longitude := mkRat 12105 100, depth_km := some 10,
    magnitude := mkRat 45 10, location_text := "Test Area", created_at := nowSample - 172800000 }

/-- The partial-garbage table of the spec's scenario: 10 rows, of which
2 have only 4 cells and 1 has a non-numeric magnitude. -/
def tableGarbage : List (List String) :=
  [sampleCells "01 November 2025 - 04:12 PM",
   sampleCells "01 November 2025 - 04:13 PM",
   ["01 November 2025 - 04:14 PM", "14.23", "121.05", "10"],
   sampleCells "01 November 2025 - 04:15 PM",
   ["01 November 2025 - 04:16 PM", "14.23", "121.05", "10", "abc", "Test Area"],
   sampleCells "01 November 2025 - 04:17 PM",
   ["x", "y", "z", "w"],
   sampleCells "01 November 2025 - 04:18 PM",
   sampleCells "01 November 2025 - 04:19 PM",
   sampleCells "01 November 2025 - 04:20 PM"]

/-- A source table for the cron loop: a six-cell header row (skipped as index 0), a valid
row, a malformed row whose timestamp cell does not parse, and another valid row. -/
def tableCron : List (List String) :=
  [["Date - Time", "Lat", "Lon", "Depth", "Mag", "Location"],
   sampleCells "01 November 2025 - 04:12 PM",
   ["x", "y", "z", "w"],
   sampleCells "01 November 2025 - 04:13 PM"]

/-- Two distinct validated records sharing one id. -/
def evA : Event :=
  { id := "dup", occurred_at := 0, latitude := 10, longitude := 121, depth_km := none,
    magnitude := 1, location_text := "A" }

/-- Second record with the same id as `evA` but different payload. -/
def evB : Event :=
  { id := "dup", occurred_at := 0, latitude := 10, longitude := 121, depth_km := none,
    magnitude := 2, location_text := "B" }

/-! ## Lemmas about the Upsert Writer -/

theorem eventRow_id (c : Millis) (e : Event) : (eventRow c e).id = e.id := rfl

theorem upsert_nil (now : Millis) (s : List Row) : upsert now s [] = s := rfl

theorem upsert_cons (now : Millis) (s : List Row) (e : Event) (b : List Event) :
    upsert now s (e :: b) = upsert now (upsertOne now s e) b := rfl

theorem mem_upsertOne {now : Millis} {s : List Row} {e : Event} {r : Row}
    (h : r ∈ upsertOne now s e) :
    r ∈ s ∨ ∃ c, r = eventRow c e := by
  unfold upsertOne at h
  split at h
  · obtain ⟨r0, hr0, rfl⟩ := List.mem_map.mp h
    by_cases hid : r0.id = e.id
    · right; exact ⟨r0.created_at, by simp [hid]⟩
    · left; simpa [hid] using hr0
  · rcases List.mem_append.mp h with h1 | h1
    · exact Or.inl h1
    · right; exact ⟨now, by simpa using h1⟩

theorem upsertOne_pres (P : Row → Prop) {now : Millis} {s : List Row} {e : Event}
    (hs : ∀ r ∈ s, P r) (he : ∀ c, P (eventRow c e)) :
    ∀ r ∈ upsertOne now s e, P r := by
  intro r hr
  rcases mem_upsertOne hr with h | ⟨c, rfl⟩
  · exact hs r h
  · exact he c

theorem upsert_pres (P : Row → Prop) {now : Millis} {b : List Event} :
    ∀ {s : List Row}, (∀ r ∈ s, P r) → (∀ e ∈ b, ∀ c, P (eventRow c e)) →
      ∀ r ∈ upsert now s b, P r := by
  induction b with
  | nil => intro s hs _ r hr; exact hs r hr
  | cons e rest ih =>
    intro s hs hb r hr
    exact ih (upsertOne_pres P hs (hb e (by simp))) (fun x hx c => hb x (by simp [hx]) c) r hr

theorem idsOf_upsertOne (now : Millis) (s : List Row) (e : Event) :
    idsOf (upsertOne now s e) = if s.any (fun r => r.id = e.id) then idsOf s
      else idsOf s ++ [e.id] := by
  unfold upsertOne
  split
  · unfold idsOf
    rw [List.map_map]
    refine List.map_congr_left ?_
    intro r _
    by_cases hid : r.id = e.id <;> simp [hid, eventRow]
  · simp [idsOf, eventRow]

theorem nodupIds_upsertOne {now : Millis} {s : List Row} {e : Event}
    (h : NodupIds s) : NodupIds (upsertOne now s e) := by
  unfold NodupIds
  rw [idsOf_upsertOne]
  split
  · exact h
  · next hany =>
    rw [List.nodup_append]
    refine ⟨h, List.nodup_singleton _, ?_⟩
    intro i hi hi2
    simp only [List.mem_singleton] at hi2
    subst hi2
    obtain ⟨r, hr, hrid⟩ := List.mem_map.mp hi
    exact hany (List.any_eq_true.mpr ⟨r, hr, by simp [hrid]⟩)

theorem nodupIds_upsert {now : Millis} {b : List Event} :
    ∀ {s : List Row}, NodupIds s → NodupIds (upsert now s b) := by
  induction b with
  | nil => intro s hs; exact hs
  | cons e rest ih => intro s hs; exact ih (nodupIds_upsertOne hs)

theorem nodupIds_filter {s : List Row} (p : Row → Bool) (h : NodupIds s) :
    NodupIds (s.filter p) := by
  unfold NodupIds idsOf at h ⊢
  exact (List.Sublist.map Row.id (List.filter_sublist s)).nodup h

theorem hasId_upsertOne_self (now : Millis) (s : List Row) (e : Event) :
    hasId (upsertOne now s e) e.id := by
  unfold upsertOne
  split
  · next hany =>
    obtain ⟨r, hr, hrb⟩ := List.any_eq_true.mp hany
    refine ⟨eventRow r.created_at e, ?_, rfl⟩
    refine List.mem_map.mpr ⟨r, hr, ?_⟩
    simp only [decide_eq_true_eq] at hrb
    simp [hrb]
  · exact ⟨eventRow now e, by simp, rfl⟩

theorem hasId_upsertOne_mono {now : Millis} {s : List Row} {e : Event} {i : String}
    (h : hasId s i) : hasId (upsertOne now s e) i := by
  obtain ⟨r, hr, hrid⟩ := h
  unfold upsertOne
  split
  · by_cases hid : r.id = e.id
    · exact ⟨eventRow r.created_at e, List.mem_map.mpr ⟨r, hr, by simp [hid]⟩, by
        simp [eventRow, ← hid, hrid]⟩
    · exact ⟨r, List.mem_map.mpr ⟨r, hr, by simp [hid]⟩, hrid⟩
  · exact ⟨r, List.mem_append.mpr (Or.inl hr), hrid⟩

theorem hasId_upsert_mono {now : Millis} {b : List Event} :
    ∀ {s : List Row} {i : String}, hasId s i → hasId (upsert now s b) i := by
  induction b with
  | nil => intro s i h; exact h
  | cons e rest ih => intro s i h; exact ih (hasId_upsertOne_mono h)

theorem hasId_upsert {now : Millis} {b : List Event} :
    ∀ {s : List Row} {e : Event}, e ∈ b → hasId (upsert now s b) e.id := by
  induction b with
  | nil => intro s e h; cases h
  | cons e1 rest ih =>
    intro s e h
    rcases List.mem_cons.mp h with rfl | h1
    · rw [upsert_cons]
      exact hasId_upsert_mono (hasId_upsertOne_self now s e)
    · rw [upsert_cons]
      exact ih h1

theorem eventRow_createdAt (c : Millis) (e : Event) : (eventRow c e).created_at = c := rfl

theorem agrees_eventRow (e : Event) (c : Millis) : agrees e (eventRow c e) := rfl

theorem agrees_upsertOne_self {now : Millis} {s : List Row} {e : Event} :
    ∀ r ∈ upsertOne now s e, r.id = e.id → agrees e r := by
  intro r hr hid
  unfold upsertOne at hr
  split at hr
  · obtain ⟨r0, hr0, rfl⟩ := List.mem_map.mp hr
    by_cases h0 : r0.id = e.id
    · simp only [if_pos h0]
      exact agrees_eventRow e r0.created_at
    · rw [if_neg h0] at hid
      exact absurd hid h0
  · next hany =>
    rcases List.mem_append.mp hr with h1 | h1
    · exact absurd (List.any_eq_true.mpr ⟨r, h1, by simp [hid]⟩) hany
    · simp only [List.mem_singleton] at h1
      subst h1
      exact agrees_eventRow e now

theorem agrees_upsertOne_other {now : Millis} {s : List Row} {e e0 : Event} {i : String}
    (hne : i ≠ e.id) (h : ∀ r ∈ s, r.id = i → agrees e0 r) :
    ∀ r ∈ upsertOne now s e, r.id = i → agrees e0 r := by
  intro r hr hid
  rcases mem_upsertOne hr with h1 | ⟨c, rfl⟩
  · exact h r h1 hid
  · rw [eventRow_id] at hid
    exact absurd hid.symm hne

theorem agrees_upsert_notin {now : Millis} {e0 : Event} {i : String} :
    ∀ {b : List Event}, i ∉ eIds b → ∀ {s : List Row},
      (∀ r ∈ s, r.id = i → agrees e0 r) →
      ∀ r ∈ upsert now s b, r.id = i → agrees e0 r := by
  intro b
  induction b with
  | nil => intro _ s h; exact h
  | cons e rest ih =>
    intro hni s h
    rw [upsert_cons]
    have hsplit : i ≠ e.id ∧ i ∉ eIds rest := by
      simpa [eIds, not_or] using hni
    exact ih hsplit.2 (agrees_upsertOne_other hsplit.1 h)

theorem agrees_upsert_mem {now : Millis} :
    ∀ {b : List Event} {s : List Row} {e : Event}, (eIds b).Nodup → e ∈ b →
      ∀ r ∈ upsert now s b, r.id = e.id → agrees e r := by
  intro b
  induction b with
  | nil => intro s e _ h; cases h
  | cons e1 rest ih =>
    intro s e hnd hmem
    have hnd2 : e1.id ∉ eIds rest ∧ (eIds rest).Nodup := List.nodup_cons.mp hnd
    rw [upsert_cons]
    rcases List.mem_cons.mp hmem with rfl | h1
    · exact agrees_upsert_notin hnd2.1 agrees_upsertOne_self
    · exact ih hnd2.2 h1

theorem upsertOne_fix {now : Millis} {s : List Row} {e : Event} (hpre : hasId s e.id)
    (hagr : ∀ r ∈ s, r.id = e.id → agrees e r) : upsertOne now s e = s := by
  obtain ⟨r1, hr1, hrid1⟩ := hpre
  unfold upsertOne
  rw [if_pos (List.any_eq_true.mpr ⟨r1, hr1, by simp [hrid1]⟩)]
  have hfix : ∀ r ∈ s, (if r.id = e.id then eventRow r.created_at e else r) = r := by
    intro r hr
    by_cases h : r.id = e.id
    · rw [if_pos h]
      exact (hagr r hr h).symm
    · rw [if_neg h]
  simpa using List.map_congr_left hfix

theorem upsert_fix {now : Millis} :
    ∀ {b : List Event} {u : List Row}, (∀ e ∈ b, hasId u e.id) →
      (∀ e ∈ b, ∀ r ∈ u, r.id = e.id → agrees e r) → upsert now u b = u := by
  intro b
  induction b with
  | nil => intro u _ _; rfl
  | cons e rest ih =>
    intro u h1 h2
    rw [upsert_cons, upsertOne_fix (h1 e (by simp)) (h2 e (by simp))]
    exact ih (fun x hx => h1 x (by simp [hx])) (fun x hx => h2 x (by simp [hx]))

theorem upsert_upsert_same {now : Millis} {s : List Row} {b : List Event}
    (hb : (eIds b).Nodup) : upsert now (upsert now s b) b = upsert now s b :=
  upsert_fix (fun _ he => hasId_upsert he)
    (fun _ he r hr hid => agrees_upsert_mem hb he r hr hid)

theorem createdAt_upsertOne (P : Millis → Prop) {now : Millis} {s : List Row} {e : Event}
    (hs : ∀ r ∈ s, P r.created_at) (hnow : P now) :
    ∀ r ∈ upsertOne now s e, P r.created_at := by
  intro r hr
  unfold upsertOne at hr
  split at hr
  · obtain ⟨r0, hr0, rfl⟩ := List.mem_map.mp hr
    by_cases h : r0.id = e.id
    · simpa [if_pos h, eventRow_createdAt] using hs r0 hr0
    · simpa [if_neg h] using hs r0 hr0
  · rcases List.mem_append.mp hr with h1 | h1
    · exact hs r h1
    · simp only [List.mem_singleton] at h1
      subst h1
      simpa [eventRow_createdAt] using hnow

theorem createdAt_upsert (P : Millis → Prop) {now : Millis} :
    ∀ {b : List Event} {s : List Row}, (∀ r ∈ s, P r.created_at) → P now →
      ∀ r ∈ upsert now s b, P r.created_at := by
  intro b
  induction b with
  | nil => intro s hs _; exact hs
  | cons e rest ih =>
    intro s hs hnow
    rw [upsert_cons]
    exact ih (createdAt_upsertOne P hs hnow) hnow

theorem countId_le_one {s : List Row} (h : NodupIds s) (i : String) :
    (s.filter (fun r => r.id = i)).length ≤ 1 := by
  induction s with
  | nil => simp
  | cons r rest ih =>
    have h2 : r.id ∉ idsOf rest ∧ NodupIds rest := List.nodup_cons.mp h
    by_cases hid : r.id = i
    · rw [List.filter_cons_of_pos (by simp [hid])]
      have hnil : rest.filter (fun x => x.id = i) = [] := by
        refine List.filter_eq_nil_iff.mpr ?_
        intro x hx
        simp only [decide_eq_true_eq]
        intro hxi
        exact h2.1 (List.mem_map.mpr ⟨x, hx, by rw [hxi, hid]⟩)
      simp [hnil]
    · rw [List.filter_cons_of_neg (by simp [hid])]
      exact ih h2.2

/-! ## Lemmas about the Deduplicators -/

theorem dedupeFirstAux_subset :
    ∀ (es : List Event) (seen : List String), ∀ e ∈ dedupeFirstAux es seen, e ∈ es := by
  intro es
  induction es with
  | nil => intro seen e h; cases h
  | cons x rest ih =>
    intro seen e h
    unfold dedupeFirstAux at h
    split at h
    · exact List.mem_cons_of_mem x (ih seen e h)
    · rcases List.mem_cons.mp h with rfl | h1
      · exact List.mem_cons_self _ _
      · exact List.mem_cons_of_mem x (ih _ e h1)

theorem dedupeFirstAux_first :
    ∀ (es : List Event) (seen : List String), ∀ e ∈ dedupeFirstAux es seen,
      e.id ∉ seen ∧ firstOccur es e.id = some e := by
  intro es
  induction es with
  | nil => intro seen e h; cases h
  | cons x rest ih =>
    intro seen e h
    unfold dedupeFirstAux at h
    split at h
    · next hc =>
      obtain ⟨h1, h2⟩ := ih seen e h
      have hxid : x.id ≠ e.id := by
        intro hx
        exact h1 (hx ▸ (by simpa [List.contains] using hc : x.id ∈ seen))
      refine ⟨h1, ?_⟩
      unfold firstOccur at h2 ⊢
      rw [List.find?_cons_of_neg _ (by simp [hxid])]
      exact h2
    · next hc =>
      rcases List.mem_cons.mp h with rfl | h1
      · refine ⟨fun hmem => hc ((by simpa [List.contains] using hmem)), ?_⟩
        unfold firstOccur
        rw [List.find?_cons_of_pos _ (by simp)]
      · obtain ⟨h1', h2'⟩ := ih (x.id :: seen) e h1
        have hne : x.id ≠ e.id := fun hx => h1' (by simp [hx])
        refine ⟨fun hmem => h1' (List.mem_cons_of_mem _ hmem), ?_⟩
        unfold firstOccur at h2' ⊢
        rw [List.find?_cons_of_neg _ (by simp [hne])]
        exact h2'

theorem dedupeFirstAux_complete :
    ∀ (es : List Event) (seen : List String), ∀ e ∈ es, e.id ∉ seen →
      ∃ x ∈ dedupeFirstAux es seen, x.id = e.id := by
  intro es
  induction es with
  | nil => intro seen e h; cases h
  | cons x rest ih =>
    intro seen e h hni
    unfold dedupeFirstAux
    rcases List.mem_cons.mp h with rfl | h1
    · split
      · next hc => exact absurd ((by simpa [List.contains] using hc : e.id ∈ seen)) hni
      · exact ⟨e, List.mem_cons_self _ _, rfl⟩
    · split
      · exact ih seen e h1 hni
      · next hc =>
        by_cases hx : e.id = x.id
        · exact ⟨x, List.mem_cons_self _ _, hx.symm⟩
        · obtain ⟨y, hy, hyid⟩ := ih (x.id :: seen) e h1 (by simp [hx, hni])
          exact ⟨y, List.mem_cons_of_mem x hy, hyid⟩

theorem dedupeFirstAux_nodup :
    ∀ (es : List Event) (seen : List String), (eIds (dedupeFirstAux es seen)).Nodup := by
  intro es
  induction es with
  | nil => intro seen; simp [dedupeFirstAux, eIds]
  | cons x rest ih =>
    intro seen
    unfold dedupeFirstAux
    split
    · exact ih seen
    · refine List.nodup_cons.mpr ⟨?_, ih (x.id :: seen)⟩
      intro hmem
      obtain ⟨y, hy, hyid⟩ := List.mem_map.mp hmem
      exact (dedupeFirstAux_first rest (x.id :: seen) y hy).1 (by simp [hyid])

theorem dedupeFirst_subset (es : List Event) : ∀ e ∈ dedupeFirst es, e ∈ es :=
  dedupeFirstAux_subset es []

theorem dedupeFirst_nodup (es : List Event) : (eIds (dedupeFirst es)).Nodup :=
  dedupeFirstAux_nodup es []

theorem dedupeFirst_first (es : List Event) :
    ∀ e ∈ dedupeFirst es, firstOccur es e.id = some e :=
  fun e h => (dedupeFirstAux_first es [] e h).2

theorem dedupeFirst_complete (es : List Event) :
    ∀ e ∈ es, ∃ x ∈ dedupeFirst es, x.id = e.id :=
  fun e h => dedupeFirstAux_complete es [] e h (by simp)

theorem dedupeMap_eq (es : List Event) :
    dedupeMap es = (mapFold es).map (fun p => p.2) := rfl

theorem mapFold_append (es : List Event) (e : Event) :
    mapFold (es ++ [e]) = mapInsert (mapFold es) e.id e := by
  unfold mapFold
  rw [List.foldl_append]
  rfl

theorem mem_mapInsert {m : List (String × Event)} {i : String} {v : Event}
    {kv : String × Event} (h : kv ∈ mapInsert m i v) :
    (kv ∈ m ∧ kv.1 ≠ i) ∨ kv = (i, v) := by
  unfold mapInsert at h
  split at h
  · obtain ⟨q, hq, rfl⟩ := List.mem_map.mp h
    by_cases hqi : q.1 = i
    · right; simp [hqi]
    · left; exact ⟨by simpa [hqi] using hq, by simp [hqi]⟩
  · next hany =>
    rcases List.mem_append.mp h with h1 | h1
    · left
      refine ⟨h1, fun hk => ?_⟩
      exact hany (List.any_eq_true.mpr ⟨kv, h1, by simp [hk]⟩)
    · right; simpa using h1

theorem self_mem_mapInsert (m : List (String × Event)) (i : String) (v : Event) :
    (i, v) ∈ mapInsert m i v := by
  unfold mapInsert
  split
  · next hany =>
    obtain ⟨q, hq, hqb⟩ := List.any_eq_true.mp hany
    simp only [decide_eq_true_eq] at hqb
    exact List.mem_map.mpr ⟨q, hq, by simp [hqb]⟩
  · exact List.mem_append.mpr (Or.inr (by simp))

theorem mem_mapInsert_of_mem {m : List (String × Event)} {i : String} {v : Event}
    {kv : String × Event} (h : kv ∈ m) (hne : kv.1 ≠ i) : kv ∈ mapInsert m i v := by
  unfold mapInsert
  split
  · exact List.mem_map.mpr ⟨kv, h, by simp [hne]⟩
  · exact List.mem_append.mpr (Or.inl h)

theorem mapKeys_mapInsert (m : List (String × Event)) (i : String) (v : Event) :
    mapKeys (mapInsert m i v) = if m.any (fun p => p.1 = i) then mapKeys m
      else mapKeys m ++ [i] := by
  unfold mapInsert
  split
  · unfold mapKeys
    rw [List.map_map]
    refine List.map_congr_left ?_
    intro q _
    by_cases hq : q.1 = i <;> simp [hq]
  · simp [mapKeys]

theorem lastOccur_append_self (es : List Event) (e : Event) :
    lastOccur (es ++ [e]) e.id = some e := by
  unfold lastOccur
  rw [List.reverse_append]
  simp

theorem lastOccur_append_other (es : List Event) (e : Event) (k : String)
    (hne : e.id ≠ k) : lastOccur (es ++ [e]) k = lastOccur es k := by
  unfold lastOccur
  rw [List.reverse_append]
  simp [hne]

theorem mapFold_spec (es : List Event) :
    ∀ kv ∈ mapFold es, kv.2.id = kv.1 ∧ lastOccur es kv.1 = some kv.2 := by
  induction es using List.reverseRecOn with
  | nil => intro kv h; cases h
  | append_singleton es e ih =>
    intro kv h
    rw [mapFold_append] at h
    rcases mem_mapInsert h with ⟨h1, h2⟩ | rfl
    · obtain ⟨hid, hlast⟩ := ih kv h1
      refine ⟨hid, ?_⟩
      rw [lastOccur_append_other es e kv.1 (fun hx => h2 hx.symm)]
      exact hlast
    · exact ⟨rfl, lastOccur_append_self es e⟩

theorem mapFold_keys_nodup (es : List Event) : (mapKeys (mapFold es)).Nodup := by
  induction es using List.reverseRecOn with
  | nil => simp [mapFold, mapKeys]
  | append_singleton es e ih =>
    rw [mapFold_append, mapKeys_mapInsert]
    split
    · exact ih
    · next hany =>
      rw [List.nodup_append]
      refine ⟨ih, List.nodup_singleton _, ?_⟩
      intro k hk hk2
      simp only [List.mem_singleton] at hk2
      subst hk2
      obtain ⟨q, hq, hq1⟩ := List.mem_map.mp hk
      exact hany (List.any_eq_true.mpr ⟨q, hq, by simp [hq1]⟩)

theorem mapFold_complete (es : List Event) :
    ∀ e ∈ es, ∃ kv ∈ mapFold es, kv.1 = e.id := by
  induction es using List.reverseRecOn with
  | nil => intro e h; cases h
  | append_singleton es e0 ih =>
    intro e h
    rw [mapFold_append]
    rcases List.mem_append.mp h with h1 | h1
    · obtain ⟨kv, hkv, hk1⟩ := ih e h1
      by_cases hcase : kv.1 = e0.id
      · exact ⟨(e0.id, e0), self_mem_mapInsert _ _ _, by rw [← hcase, hk1]⟩
      · exact ⟨kv, mem_mapInsert_of_mem hkv hcase, hk1⟩
    · simp only [List.mem_singleton] at h1
      subst h1
      exact ⟨(e.id, e), self_mem_mapInsert _ _ _, rfl⟩

theorem dedupeMap_last (es : List Event) :
    ∀ e ∈ dedupeMap es, lastOccur es e.id = some e := by
  intro e h
  rw [dedupeMap_eq] at h
  obtain ⟨kv, hkv, rfl⟩ := List.mem_map.mp h
  obtain ⟨hid, hlast⟩ := mapFold_spec es kv hkv
  rw [hid]
  exact hlast

theorem dedupeMap_subset (es : List Event) : ∀ e ∈ dedupeMap es, e ∈ es := by
  intro e h
  have hlast := dedupeMap_last es e h
  have hm := List.mem_of_find?_eq_some hlast
  simp at hm
  exact hm

theorem dedupeMap_nodup (es : List Event) : (eIds (dedupeMap es)).Nodup := by
  have hkeys := mapFold_keys_nodup es
  have heq : eIds (dedupeMap es) = mapKeys (mapFold es) := by
    rw [dedupeMap_eq]
    unfold eIds mapKeys
    rw [List.map_map]
    refine List.map_congr_left ?_
    intro kv hkv
    exact (mapFold_spec es kv hkv).1
  rw [heq]
  exact hkeys

theorem dedupeMap_complete (es : List Event) :
    ∀ e ∈ es, ∃ x ∈ dedupeMap es, x.id = e.id := by
  intro e h
  obtain ⟨kv, hkv, hk⟩ := mapFold_complete es e h
  refine ⟨kv.2, ?_, ?_⟩
  · rw [dedupeMap_eq]
    exact List.mem_map.mpr ⟨kv, hkv, rfl⟩
  · rw [(mapFold_spec es kv hkv).1, hk]

/-! ## Lemmas about the Row Extractor and Record Validator -/

theorem parseDepth_ne_zero (s : String) : parseDepth s ≠ some 0 := by
  unfold parseDepth
  cases parseFloatJS s with
  | none => simp
  | some v => by_cases hv : v = 0 <;> simp [hv]

theorem processRow_props {cells : List String} {e : Event}
    (h : processRow cells = some e) : inBoxE e ∧ e.depth_km ≠ some 0 := by
  unfold processRow at h
  split at h
  · next c0 c1 c2 c3 c4 c5 =>
    simp only [] at h
    split at h
    · exact absurd h (by simp)
    · split at h
      · next occ lat lon mag hocc hlat hlon hmag =>
        split at h
        · exact absurd h (by simp)
        · next hbox =>
          have he := Option.some_injective _ h
          push_neg at hbox
          constructor
          · rw [← he]
            exact ⟨hbox.1, hbox.2.1, hbox.2.2.1, hbox.2.2.2⟩
          · rw [← he]
            exact parseDepth_ne_zero (trimS c3)
      · exact absurd h (by simp)
  · exact absurd h (by simp)

theorem extractEvents_count (rows : List (List String)) :
    (extractEvents rows).1.length + (extractEvents rows).2 = rows.length := by
  induction rows with
  | nil => rfl
  | cons cells rest ih =>
    simp only [extractEvents]
    cases hp : processRow cells
    · simp only [hp]
      simpa using by omega
    · simp only [hp]
      simp only [List.length_cons]
      omega

theorem mem_extractEvents {rows : List (List String)} {e : Event}
    (h : e ∈ (extractEvents rows).1) : ∃ cells ∈ rows, processRow cells = some e := by
  induction rows with
  | nil => cases h
  | cons cells rest ih =>
    simp only [extractEvents] at h
    cases hp : processRow cells
    · rw [hp] at h
      obtain ⟨c, hc, hce⟩ := ih h
      exact ⟨c, List.mem_cons_of_mem cells hc, hce⟩
    · rw [hp] at h
      rcases List.mem_cons.mp h with rfl | h1
      · exact ⟨cells, List.mem_cons_self _ _, hp⟩
      · obtain ⟨c, hc, hce⟩ := ih h1
        exact ⟨c, List.mem_cons_of_mem cells hc, hce⟩

theorem cronScrapeGo_error :
    ∀ (dataRows : List (List String)) (cells : List String), cells ∈ dataRows →
      parsePhivolcsMillis (cells.getD 0 "") = none →
      ∃ msg, cronScrapeGo dataRows = Except.error msg := by
  intro dataRows
  induction dataRows with
  | nil => intro cells h; cases h
  | cons c rest ih =>
    intro cells hmem hbad
    rcases List.mem_cons.mp hmem with rfl | h1
    · refine ⟨"TypeError: occurred_at is null in generateEventId", ?_⟩
      unfold cronScrapeGo processRowCron
      rw [hbad]
    · obtain ⟨msg, hmsg⟩ := ih cells h1 hbad
      unfold cronScrapeGo
      cases hc : processRowCron c with
      | error m => exact ⟨m, rfl⟩
      | ok ev =>
        refine ⟨msg, ?_⟩
        rw [hmsg]
        rfl

/-! ## Lemmas about the sweeps and queries -/

theorem mem_sweepByCreatedAt {now : Millis} {s : List Row} {r : Row}
    (h : r ∈ sweepByCreatedAt now s) : r ∈ s :=
  List.mem_of_mem_filter h

theorem mem_sweepByOccurredAt {now : Millis} {s : List Row} {r : Row}
    (h : r ∈ sweepByOccurredAt now s) : r ∈ s :=
  List.mem_of_mem_filter h

theorem sweepByCreatedAt_eq_self {now : Millis} {s : List Row}
    (h : ∀ r ∈ s, now - retentionMs ≤ r.created_at) :
    sweepByCreatedAt now s = s :=
  List.filter_eq_self.mpr (fun r hr => by simpa using h r hr)

theorem inBoxRow_eventRow {e : Event} (c : Millis) (h : inBoxE e) :
    inBoxRow (eventRow c e) := h

/-! ## Claim theorems -/

/-- Claim C1: the Retention Sweeper is required to delete a stored row exactly when its age
computed from `occurred_at` exceeds 24 hours, never from `created_at`. The sweep actually run
by `api/events.js` and `api/earthph-cron.js` filters on `created_at`: evaluated on a row
scraped late (occurred 48 hours ago, stored one minute ago), that sweep keeps the row even
though its `occurred_at` age exceeds the horizon, while the `occurred_at`-based sweep of
`src/unnamed/part_014` deletes it as the claim requires. -/
theorem C1_created_at_sweep_keeps_stale_row :
    lateRow.occurred_at < nowSample - retentionMs ∧
    sweepByCreatedAt nowSample [lateRow] = [lateRow] ∧
    sweepByOccurredAt nowSample [lateRow] = [] := by
  decide

/-- Claim C2 counterexample: the deduplication that precedes the upsert in
`api/scrape-cjs.js` is Map-based, and a JS Map keeps the LAST value written per key, so on a
batch with two distinct records sharing one id it passes the second record, not the first
occurrence the claim requires. -/
theorem C2_dedupe_counterexample :
    evA.id = evB.id ∧ evA ≠ evB ∧ dedupeMap [evA, evB] = [evB] ∧
    firstOccur [evA, evB] evA.id = some evA := by
  decide

/-- Claim C2 (amended): both deduplicators emit pairwise-distinct ids covering every input id
(so the sequence passed to the Upsert Writer has as many records as distinct ids); the
Set-based dedupe of `api/events.js` keeps the first occurrence of each id in input order,
while the Map-based dedupe of `api/scrape-cjs.js` keeps the last occurrence. -/
theorem C2_dedupe_amended (es : List Event) :
    (eIds (dedupeFirst es)).Nodup ∧ (eIds (dedupeMap es)).Nodup ∧
    (∀ e ∈ dedupeFirst es, firstOccur es e.id = some e) ∧
    (∀ e ∈ es, ∃ x ∈ dedupeFirst es, x.id = e.id) ∧
    (∀ e ∈ dedupeMap es, lastOccur es e.id = some e) ∧
    (∀ e ∈ es, ∃ x ∈ dedupeMap es, x.id = e.id) :=
  ⟨dedupeFirst_nodup es, dedupeMap_nodup es, dedupeFirst_first es, dedupeFirst_complete es,
   dedupeMap_last es, dedupeMap_complete es⟩

/-- Witness for the amended C2 on a concrete duplicated batch. -/
theorem C2_dedupe_amended_witness :
    firstOccur [evA, evB] evA.id = some evA ∧ lastOccur [evA, evB] evB.id = some evB :=
  ⟨(C2_dedupe_amended [evA, evB]).2.2.1 evA (by decide),
   (C2_dedupe_amended [evA, evB]).2.2.2.2.1 evB (by decide)⟩

theorem scrapeAndStore_ok (now : Millis) (rows : List (List String)) (store : List Row) :
    scrapeAndStore now (.ok rows) store =
      if (extractEvents rows).1.isEmpty then store
      else sweepByCreatedAt now (upsert now store (dedupeFirst (extractEvents rows).1)) := rfl

theorem splitDateTime_none {s : String} (h : breakOnSep s.toList = none) :
    splitDateTime s = none := by
  unfold splitDateTime
  rw [h]

theorem parsePhivolcsMillis_split_none {s : String} (h : splitDateTime s = none) :
    parsePhivolcsMillis s = none := by
  unfold parsePhivolcsMillis
  rw [h]

theorem parsePhivolcsMillis_split_some {s : String} {dp tp : List Char}
    (h : splitDateTime s = some (dp, tp)) :
    parsePhivolcsMillis s =
      match parseDatePart dp, parseTimePart tp with
      | some dmy, some hm =>
        some (dateUTC dmy.2.2 (dmy.2.1 - 1) dmy.1 hm.1 hm.2 - 8 * 3600000)
      | _, _ => none := by
  unfold parsePhivolcsMillis
  rw [h]

/-- Claim C5: the DateTime Normalizer maps `"01 November 2025 - 04:12 PM"` to exactly
`"2025-11-01T08:12:00.000Z"` (with 12 AM as hour 0, 12 PM as hour 12, other PM hours plus 12,
then the fixed 8-hour local offset subtracted), and every input missing the `" - "` separator,
failing the date-segment parse (in particular an unrecognised month name), or lacking a valid
hour:minute AM/PM token yields `null` rather than a crash. -/
theorem C5_datetime_normalizer :
    parsePhivolcsDateTime "01 November 2025 - 04:12 PM" = some "2025-11-01T08:12:00.000Z" ∧
    parsePhivolcsDateTime "01 November 2025 - 12:00 AM" = some "2025-10-31T16:00:00.000Z" ∧
    parsePhivolcsDateTime "01 November 2025 - 12:00 PM" = some "2025-11-01T04:00:00.000Z" ∧
    (∀ s : String, breakOnSep s.toList = none → parsePhivolcsDateTime s = none) ∧
    (∀ (s : String) (dp tp : List Char), splitDateTime s = some (dp, tp) →
      parseDatePart dp = none → parsePhivolcsDateTime s = none) ∧
    (∀ (dp : List Char) (dt mt yt : List Char), splitSpaces (trimList dp) = [dt, mt, yt] →
      monthLookup ⟨mt⟩ = none → parseDatePart dp = none) ∧
    (∀ (s : String) (dp tp : List Char), splitDateTime s = some (dp, tp) →
      findTimeMatch tp = none → parsePhivolcsDateTime s = none) := by
  refine ⟨by decide, by decide, by decide, ?_, ?_, ?_, ?_⟩
  · intro s h
    unfold parsePhivolcsDateTime
    rw [parsePhivolcsMillis_split_none (splitDateTime_none h)]
    rfl
  · intro s dp tp h1 h2
    unfold parsePhivolcsDateTime
    rw [parsePhivolcsMillis_split_some h1, h2]
    cases parseTimePart tp <;> rfl
  · intro dp dt mt yt h1 h2
    unfold parseDatePart
    rw [h1]
    show (match parseIntJS ⟨dt⟩, monthLookup ⟨mt⟩, parseIntJS ⟨yt⟩ with
          | some day, some month, some year =>
            if day = 0 ∨ year = 0 then none else some (day, month, year)
          | _, _, _ => none) = none
    cases hdt : parseIntJS ⟨dt⟩ <;> cases hmt : monthLookup ⟨mt⟩ <;>
      cases hyt : parseIntJS ⟨yt⟩ <;> try rfl
    all_goals rw [h2] at hmt
    all_goals simp at hmt
  · intro s dp tp h1 h2
    unfold parsePhivolcsDateTime
    have h3 : parseTimePart tp = none := by
      unfold parseTimePart
      rw [h2]
    rw [parsePhivolcsMillis_split_some h1, h3]
    cases parseDatePart dp <;> rfl

/-- Witness for C5 on concrete malformed inputs: a string with no separator, one with an
unknown month name, and one without an AM/PM time token all normalise to `null`. -/
theorem C5_datetime_normalizer_witness :
    parsePhivolcsDateTime "01 November 2025" = none ∧
    parsePhivolcsDateTime "01 Wrongmonth 2025 - 04:12 PM" = none ∧
    parsePhivolcsDateTime "01 November 2025 - 0412 PM" = none := by
  refine ⟨?_, ?_, ?_⟩
  · exact C5_datetime_normalizer.2.2.2.1 "01 November 2025" (by decide)
  · exact C5_datetime_normalizer.2.2.2.2.1 "01 Wrongmonth 2025 - 04:12 PM" _ _ rfl
      (C5_datetime_normalizer.2.2.2.2.2.1 _ _ _ _ rfl (by decide))
  · exact C5_datetime_normalizer.2.2.2.2.2.2 "01 November 2025 - 0412 PM" _ _ rfl (by decide)

/-- Claim C3 counterexample: the query of the `api/events.js` GET handler has no 24-hour
filter and caps at 100, not 500: on a store holding a two-day-old row it returns that row,
whereas a query returning exactly the last-24-hour window (as `src/unnamed/part_010` and
`part_011` do) returns only the fresh row. -/
theorem C3_read_query_counterexample :
    oldRow.occurred_at < nowSample - retentionMs ∧
    readQueryEvents storeMixed = [freshRow, oldRow] ∧
    readQueryWindow nowSample storeMixed = [freshRow] := by
  decide

/-- Claim C3 (amended): the read query of `src/unnamed/part_010`/`part_011` returns exactly
the stored events with `occurred_at` in the last 24 hours, ordered by `occurred_at`
descending, capped at 500 (exhaustive whenever at most 500 rows match); the `api/events.js`
handler query instead returns up to 100 stored rows ordered descending with no time filter. -/
theorem C3_read_query_amended (now : Millis) (s : List Row) :
    (∀ r ∈ readQueryWindow now s, now - retentionMs ≤ r.occurred_at) ∧
    (readQueryWindow now s).Sorted rowDescLE ∧
    (readQueryWindow now s).length ≤ 500 ∧
    ((s.filter (fun r => now - retentionMs ≤ r.occurred_at)).length ≤ 500 →
      (readQueryWindow now s).Perm
        (s.filter (fun r => now - retentionMs ≤ r.occurred_at))) ∧
    (∀ r ∈ readQueryEvents s, r ∈ s) ∧
    (readQueryEvents s).Sorted rowDescLE ∧
    (readQueryEvents s).length ≤ 100 := by
  refine ⟨?_, ?_, ?_, ?_, ?_, ?_, ?_⟩
  · intro r hr
    have hr1 := List.mem_of_mem_take hr
    have hr2 := (List.perm_insertionSort rowDescLE _).subset hr1
    simpa using (List.mem_filter.mp hr2).2
  · exact List.Pairwise.sublist (List.take_sublist _ _)
      (List.sorted_insertionSort rowDescLE _)
  · exact List.length_take_le _ _
  · intro hlen
    unfold readQueryWindow sortDesc
    rw [List.take_of_length_le]
    · exact List.perm_insertionSort rowDescLE _
    · rw [(List.perm_insertionSort rowDescLE _).length_eq]
      exact hlen
  · intro r hr
    exact (List.perm_insertionSort rowDescLE s).subset (List.mem_of_mem_take hr)
  · exact List.Pairwise.sublist (List.take_sublist _ _)
      (List.sorted_insertionSort rowDescLE s)
  · exact List.length_take_le _ _

/-- Witness for the amended C3 on the concrete mixed store. -/
theorem C3_read_query_amended_witness :
    (readQueryWindow nowSample storeMixed).Perm
      (storeMixed.filter (fun r => nowSample - retentionMs ≤ r.occurred_at)) ∧
    (readQueryWindow nowSample storeMixed).length ≤ 500 :=
  ⟨(C3_read_query_amended nowSample storeMixed).2.2.2.1 (by decide),
   (C3_read_query_amended nowSample storeMixed).2.2.1⟩

/-- Claim C4 counterexample: with the `created_at`-based sweep of `api/events.js`, two runs
are not always equivalent to one. On a store holding a row whose id is in the current batch
but whose `created_at` is past the horizon, the first run's upsert overwrites the row in
place (keeping the stale `created_at`) and its sweep then deletes it; the second run
re-inserts it with a fresh `created_at`, so it survives: the second run adds one row. -/
theorem C4_pipeline_counterexample :
    scrapeAndStore nowSample (.ok tableOne) [staleIdRow] = [] ∧
    scrapeAndStore nowSample (.ok tableOne)
        (scrapeAndStore nowSample (.ok tableOne) [staleIdRow]) =
      [eventRow nowSample evSample] := by
  decide

/-- Claim C4 (amended): running the scrape cycle twice on the same document with the same
clock is idempotent — the second run adds zero rows and changes no field — provided every
stored row's `created_at` lies within the retention horizon (the state consecutive
five-minute cycles maintain); without that proviso the `created_at`-based sweep can delete a
stale-stored row that the second run then re-inserts. -/
theorem C4_pipeline_idempotent_amended (now : Millis) (fetch : FetchOutcome)
    (store : List Row) (hfresh : ∀ r ∈ store, now - retentionMs ≤ r.created_at) :
    scrapeAndStore now fetch (scrapeAndStore now fetch store) =
      scrapeAndStore now fetch store := by
  cases fetch with
  | fetchError m => rfl
  | ok rows =>
    simp only [scrapeAndStore_ok]
    by_cases hemp : ((extractEvents rows).1).isEmpty
    · simp only [if_pos hemp]
    · simp only [if_neg hemp]
      have hfresh1 : ∀ r ∈ upsert now store (dedupeFirst (extractEvents rows).1),
          now - retentionMs ≤ r.created_at := by
        refine createdAt_upsert (fun c => now - retentionMs ≤ c) hfresh ?_
        show now - retentionMs ≤ now
        exact sub_le_self now (by decide : (0 : Int) ≤ retentionMs)
      have hsw := sweepByCreatedAt_eq_self hfresh1
      rw [hsw, upsert_upsert_same (dedupeFirst_nodup _), hsw]

/-- Witness for the amended C4: two runs on the sample document over a fresh store coincide
with one run. -/
theorem C4_pipeline_idempotent_witness :
    scrapeAndStore nowSample (.ok tableOne)
        (scrapeAndStore nowSample (.ok tableOne) [freshRow]) =
      scrapeAndStore nowSample (.ok tableOne) [freshRow] :=
  C4_pipeline_idempotent_amended nowSample (.ok tableOne) [freshRow] (by decide)

/-- Claim C6: every event the Row Extractor/Validator emits has latitude in
[`minLat`, `maxLat`] and longitude in [`minLon`, `maxLon`] (rows outside the box are
discarded before persistence), and a scrape cycle preserves the bounding-box invariant of
the store. -/
theorem C6_bounding_box_invariant :
    (∀ rows : List (List String), ∀ e ∈ (extractEvents rows).1, inBoxE e) ∧
    (∀ (now : Millis) (fetch : FetchOutcome) (store : List Row),
      (∀ r ∈ store, inBoxRow r) → ∀ r ∈ scrapeAndStore now fetch store, inBoxRow r) := by
  constructor
  · intro rows e he
    obtain ⟨cells, _, hce⟩ := mem_extractEvents he
    exact (processRow_props hce).1
  · intro now fetch store hstore r hr
    cases fetch with
    | fetchError m => exact hstore r hr
    | ok rows =>
      rw [scrapeAndStore_ok] at hr
      by_cases hemp : ((extractEvents rows).1).isEmpty
      · rw [if_pos hemp] at hr
        exact hstore r hr
      · rw [if_neg hemp] at hr
        refine upsert_pres inBoxRow hstore ?_ r (mem_sweepByCreatedAt hr)
        intro e he c
        obtain ⟨cells, _, hce⟩ := mem_extractEvents (dedupeFirst_subset _ e he)
        exact inBoxRow_eventRow c (processRow_props hce).1

/-- Witness for C6: the row stored for the sample table lies inside the bounding box. -/
theorem C6_bounding_box_witness : inBoxRow (eventRow nowSample evSample) :=
  C6_bounding_box_invariant.2 nowSample (.ok tableOne) [] (by simp)
    (eventRow nowSample evSample) (by decide)

/-- Claim C7: when the upstream fetch fails, the catch inside `scrapeAndStore` swallows the
error and leaves the store untouched, and the GET handler still answers with a success
response holding the stored events — the fetch failure is never surfaced to the caller. -/
theorem C7_fetch_failure_serves_stored (now : Millis) (msg : String) (store : List Row) :
    scrapeAndStore now (.fetchError msg) store = store ∧
    handlerModel now (.fetchError msg) store =
      ({ success := true, events := readQueryEvents store }, store) :=
  ⟨rfl, rfl⟩

/-- Claim C8 counterexample: the scrape loop of `api/earthph-cron.js` (lines 89–97) has no
per-row validation or recovery: on a table whose third row has an unparseable timestamp
cell, the `generateEventId` call throws and the whole cycle fails with an error and no
skipped-row count — while the `api/events.js` loop on the very same table skips and counts
the bad rows (the header and the malformed row) and keeps the two good ones. -/
theorem C8_cron_crash_counterexample :
    cronScrapeRows tableCron =
      Except.error "TypeError: occurred_at is null in generateEventId" ∧
    (extractEvents tableCron).1.length = 2 ∧
    (extractEvents tableCron).2 = 2 := by
  refine ⟨by rfl, by decide, by decide⟩

/-- Claim C8 (amended): in the `api/events.js` scrape loop every parse-level failure on an
individual row causes only that row to be skipped and counted (extracted events plus
skipped rows always equals the number of rows), and on the scenario table — 10 rows of
which 2 have only 4 cells and 1 has a non-numeric magnitude — exactly 7 events are
extracted, 3 rows are reported skipped, and 7 rows are stored. The `api/earthph-cron.js`
loop, by contrast, validates nothing per row: any data row whose timestamp cell fails to
parse makes `generateEventId` throw, which aborts the whole scrape cycle with an error and
no skip count. -/
theorem C8_parse_failures_skipped :
    (∀ rows : List (List String),
      (extractEvents rows).1.length + (extractEvents rows).2 = rows.length) ∧
    (extractEvents tableGarbage).1.length = 7 ∧
    (extractEvents tableGarbage).2 = 3 ∧
    (scrapeAndStore nowSample (.ok tableGarbage) []).length = 7 ∧
    (∀ (hdr cells : List String) (dataRows : List (List String)), cells ∈ dataRows →
      parsePhivolcsMillis (cells.getD 0 "") = none →
      ∃ msg, cronScrapeRows (hdr :: dataRows) = Except.error msg) :=
  ⟨extractEvents_count, by decide, by decide, by decide,
   fun _ cells dataRows hmem hbad => cronScrapeGo_error dataRows cells hmem hbad⟩

/-- Witness for the amended C8: the concrete malformed-timestamp row aborts the concrete
cron cycle. -/
theorem C8_parse_failures_witness :
    ∃ msg, cronScrapeRows tableCron = Except.error msg :=
  C8_parse_failures_skipped.2.2.2.2
    ["Date - Time", "Lat", "Lon", "Depth", "Mag", "Location"]
    ["x", "y", "z", "w"]
    [sampleCells "01 November 2025 - 04:12 PM", ["x", "y", "z", "w"],
     sampleCells "01 November 2025 - 04:13 PM"]
    (by decide) (by decide)

/-- Claim C9: the Identity Generators are deterministic — equal `occurred_at`, latitude,
longitude (and magnitude, in the `api/events.js` variant) always yield the identical id
string — and the store keeps at most one row per id after an upsert of a deduplicated
batch. -/
theorem C9_identity_deterministic :
    (∀ (t1 : String) (la1 lo1 mg1 : Rat) (t2 : String) (la2 lo2 mg2 : Rat),
      t1 = t2 → la1 = la2 → lo1 = lo2 → mg1 = mg2 →
      generateEventId t1 la1 lo1 mg1 = generateEventId t2 la2 lo2 mg2) ∧
    (∀ (t1 : String) (la1 lo1 : Rat) (t2 : String) (la2 lo2 : Rat),
      t1 = t2 → la1 = la2 → lo1 = lo2 →
      generateEventIdCron t1 la1 lo1 = generateEventIdCron t2 la2 lo2) ∧
    (∀ (now : Millis) (store : List Row) (b : List Event) (i : String), NodupIds store →
      ((upsert now store (dedupeFirst b)).filter (fun r => r.id = i)).length ≤ 1) := by
  refine ⟨?_, ?_, ?_⟩
  · intro t1 la1 lo1 mg1 t2 la2 lo2 mg2 h1 h2 h3 h4
    rw [h1, h2, h3, h4]
  · intro t1 la1 lo1 t2 la2 lo2 h1 h2 h3
    rw [h1, h2, h3]
  · intro now store b i h
    exact countId_le_one (nodupIds_upsert h) i

/-- Witness for C9: determinism on the sample inputs, and the collapsed duplicate batch
leaves at most one stored row with the shared id. -/
theorem C9_identity_witness :
    generateEventId "2025-11-01T08:12:00.000Z" (mkRat 1423 100) (mkRat 12105 100)
        (mkRat 45 10) =
      generateEventId "2025-11-01T08:12:00.000Z" (mkRat 1423 100) (mkRat 12105 100)
        (mkRat 45 10) ∧
    ((upsert nowSample [freshRow] (dedupeFirst [evA, evB])).filter
        (fun r => r.id = "dup")).length ≤ 1 :=
  ⟨C9_identity_deterministic.1 _ _ _ _ _ _ _ _ rfl rfl rfl rfl,
   C9_identity_deterministic.2.2 nowSample [freshRow] [evA, evB] "dup"
     (by simp [NodupIds, idsOf])⟩

/-- Claim C10: a depth cell whose text parses to the number 0 is stored as `null` (exactly
like an unparseable depth cell), so no extracted event — and, preserved through the scrape
cycle, no stored row — carries `depth_km = 0`. -/
theorem C10_depth_zero_null :
    parseDepth "0" = none ∧ parseDepth "0.0" = none ∧
    (∀ s : String, parseDepth s ≠ some 0) ∧
    (∀ rows : List (List String), ∀ e ∈ (extractEvents rows).1, e.depth_km ≠ some 0) ∧
    (∀ (now : Millis) (fetch : FetchOutcome) (store : List Row),
      (∀ r ∈ store, r.depth_km ≠ some 0) →
      ∀ r ∈ scrapeAndStore now fetch store, r.depth_km ≠ some 0) := by
  refine ⟨by decide, by decide, parseDepth_ne_zero, ?_, ?_⟩
  · intro rows e he
    obtain ⟨cells, _, hce⟩ := mem_extractEvents he
    exact (processRow_props hce).2
  · intro now fetch store hstore r hr
    cases fetch with
    | fetchError m => exact hstore r hr
    | ok rows =>
      rw [scrapeAndStore_ok] at hr
      by_cases hemp : ((extractEvents rows).1).isEmpty
      · rw [if_pos hemp] at hr
        exact hstore r hr
      · rw [if_neg hemp] at hr
        refine upsert_pres (fun r => r.depth_km ≠ some 0) hstore ?_ r
          (mem_sweepByCreatedAt hr)
        intro e he c
        obtain ⟨cells, _, hce⟩ := mem_extractEvents (dedupeFirst_subset _ e he)
        exact (processRow_props hce).2

/-- Witness for C10: a zero depth cell stores `null`, and the row stored for the sample
table does not carry depth 0. -/
theorem C10_depth_zero_witness :
    parseDepth "7.5" ≠ some 0 ∧
    (eventRow nowSample evSample).depth_km ≠ some 0 :=
  ⟨C10_depth_zero_null.2.2.1 "7.5",
   C10_depth_zero_null.2.2.2.2 nowSample (.ok tableOne) [] (by simp)
     (eventRow nowSample evSample) (by decide)⟩

end EarthPH
